import Mathlib

/-!
# Verification of the arc-tmux run-orchestration core

Shallow embedding of the idle-detection / run-orchestration / sentinel-extraction
core of the `arc-tmux` CLI (Go), together with proofs of the specification's
testable properties.

Go strings are modelled as lists of characters (`GoString`); Go byte indexing
agrees with character indexing on the inputs the claims exercise.  Machine
integers are modelled as `Int` (Go `strconv.Atoi` overflow for values beyond
64 bits is out of scope of every claim).  All definitions are translated from
`internal/cmd/run.go`, `internal/cmd/follow.go` and the tmux adapter
(`WaitIdle`).
-/

/-- Go strings, modelled as character lists. -/
abbrev GoString := List Char

/-- Model of `strings.Contains(s, sub)`. -/
def strContains (s sub : GoString) : Bool :=
  decide (sub <:+: s)

/-- Model of `strings.Split(s, "\n")`: split at every newline; always non-empty. -/
def splitNl : GoString → List GoString
  | [] => [[]]
  | c :: rest =>
    match splitNl rest with
    | [] => [[]]
    | h :: t => if c = '\n' then [] :: h :: t else (c :: h) :: t

/-- Model of `splitLines` from `internal/cmd/follow.go`: split on newlines and drop a
trailing empty line; the empty capture yields no lines. -/
def splitLines (s : GoString) : List GoString :=
  if s = [] then []
  else
    let lines := splitNl s
    if lines.getLast? = some [] then lines.dropLast else lines

/-- The backward scan of `extractRunWindow` for the last line satisfying `p`
(`for i := len(lines)-1; i >= 0; i--`). -/
def lastIdxSatisfying (p : GoString → Bool) : List GoString → Option Nat
  | [] => none
  | a :: rest =>
    match lastIdxSatisfying p rest with
    | some j => some (j + 1)
    | none => if p a then some 0 else none

/-- Forward scan for the first index at or past `base` satisfying `p`,
acting on the remaining lines. -/
def firstIdxAux (p : GoString → Bool) : List GoString → Nat → Option Nat
  | [], _ => none
  | a :: rest, base => if p a then some base else firstIdxAux p rest (base + 1)

/-- The forward scan of `extractRunWindow` for the first line at index
`≥ start` satisfying `p` (`for i := startIdx+1; i < len(lines); i++`). -/
def firstIdxFrom (p : GoString → Bool) (l : List GoString) (start : Nat) : Option Nat :=
  firstIdxAux p (l.drop start) start

/-- Whitespace as trimmed by Go `strings.TrimSpace` (`unicode.IsSpace`),
restricted to the Latin-1 space characters. -/
def isSpaceChar (c : Char) : Bool :=
  c == ' ' || c == '\t' || c == '\n' || c == '\x0b' || c == '\x0c' || c == '\r' ||
    c == '\x85' || c == '\xa0'

/-- Model of `strings.TrimSpace`. -/
def trimSpace (cs : GoString) : GoString :=
  ((cs.dropWhile isSpaceChar).reverse.dropWhile isSpaceChar).reverse

/-- Decimal digit run accepted by `strconv.Atoi` (after the optional sign). -/
def parseNatDigits (cs : GoString) : Option Nat :=
  if cs = [] then none
  else if cs.all Char.isDigit then
    some (cs.foldl (fun acc c => acc * 10 + (c.toNat - '0'.toNat)) 0)
  else none

/-- Model of `strconv.Atoi`: optional sign followed by decimal digits. -/
def atoi (cs : GoString) : Option Int :=
  match cs with
  | '+' :: rest => (parseNatDigits rest).map (fun n => (n : Int))
  | '-' :: rest => (parseNatDigits rest).map (fun n => -(n : Int))
  | _ => (parseNatDigits cs).map (fun n => (n : Int))

/-- Model of `strings.Index(s, sub)`: first index where `sub` occurs in `s`. -/
def firstIndexOf (pat : GoString) : GoString → Option Nat
  | [] => if pat.isEmpty then some 0 else none
  | c :: rest =>
    if pat.isPrefixOf (c :: rest) then some 0
    else (firstIndexOf pat rest).map (· + 1)

/-- One iteration body of the backward scan in `extractExitFromLines`
(run.go:323-333): locate the tag in the line, trim the text after it, and
parse it as an integer; `none` models every `continue`. -/
def parseExitLine (line tag : GoString) : Option Int :=
  match firstIndexOf tag line with
  | none => none
  | some idx =>
    let codeStr := trimSpace (line.drop (idx + tag.length))
    if codeStr = [] then none else atoi codeStr

/-- The backward scan of `extractExitFromLines`: try the later lines first;
on the first (i.e. last chronological) line that parses, remove it and
return the parsed code. -/
def extractExitCore (tag : GoString) : List GoString → Option (List GoString × Int)
  | [] => none
  | l :: rest =>
    match extractExitCore tag rest with
    | some (rest2, c) => some (l :: rest2, c)
    | none =>
      match parseExitLine l tag with
      | some c => some (rest, c)
      | none => none

/-- Model of `extractExitFromLines` (run.go:318-339): returns the (possibly shortened)
lines, the parsed exit code, and whether one was found. -/
def extractExitFromLines (lines : List GoString) (tag : GoString) :
    List GoString × Option Int × Bool :=
  if tag = [] then (lines, none, false)
  else
    match extractExitCore tag lines with
    | some (rest, c) => (rest, some c, true)
    | none => (lines, none, false)

/-- Result quadruple of `extractRunWindow`. -/
structure WindowResult where
  clean : GoString
  code : Option Int
  exitFound : Bool
  windowFound : Bool
  deriving DecidableEq

/-- Model of `extractRunWindow` (run.go:279-316). -/
def extractRunWindow (output startTag endTag exitTag : GoString) (parseExit : Bool) :
    WindowResult :=
  if startTag = [] ∨ endTag = [] then ⟨output, none, false, false⟩
  else
    let hadTrailingNewline := ['\n'].isSuffixOf output
    let lines := splitLines output
    match lastIdxSatisfying (fun l => strContains l startTag) lines with
    | none => ⟨output, none, false, false⟩
    | some startIdx =>
      let endIdx :=
        match firstIdxFrom (fun l => strContains l endTag) lines (startIdx + 1) with
        | some j => j
        | none => lines.length
      let segment := (lines.drop (startIdx + 1)).take (endIdx - (startIdx + 1))
      let step :=
        if parseExit then extractExitFromLines segment exitTag else (segment, none, false)
      let clean := List.intercalate ['\n'] step.1 ++ (if hadTrailingNewline then ['\n'] else [])
      ⟨clean, step.2.1, step.2.2, true⟩

/-- Orchestrator window resolution (run.go:152-158): run the extractor on the
line-limited capture; when the window is missing and the capture was limited,
retry once on the full capture (`fullCapture = none` models a failing
`tmux.Capture(target, 0)`). -/
def resolveRunWindow (limited : GoString) (fullCapture : Option GoString) (lines : Nat)
    (startTag endTag exitTag : GoString) (parseExit : Bool) : WindowResult :=
  let r := extractRunWindow limited startTag endTag exitTag parseExit
  if r.windowFound = false ∧ 0 < lines then
    match fullCapture with
    | some full => extractRunWindow full startTag endTag exitTag parseExit
    | none => r
  else r

/-- Final capture / exit-code / found triple of the orchestrator. -/
structure RunOutcome where
  output : GoString
  code : Option Int
  found : Bool
  deriving DecidableEq

/-- Orchestrator extraction phase (run.go:150-176): resolve the sentinel
window (with the one-shot unlimited retry), and, when an exit code was
requested but not found, fall back to scanning the current capture for the
exit tag. -/
def computeRunResult (s : GoString) (fullCapture : Option GoString) (lines : Nat)
    (startTag endTag exitTag : GoString) (exitCode segment : Bool) : RunOutcome :=
  if exitCode || segment then
    let r := resolveRunWindow s fullCapture lines startTag endTag exitTag exitCode
    let st : RunOutcome := if r.windowFound then ⟨r.clean, r.code, r.exitFound⟩ else ⟨s, none, false⟩
    if exitCode && !st.found then
      let hadNl := ['\n'].isSuffixOf st.output
      let fb := extractExitFromLines (splitLines st.output) exitTag
      if fb.2.2 then
        ⟨List.intercalate ['\n'] fb.1 ++ (if hadNl then ['\n'] else []), fb.2.1, true⟩
      else st
    else st
  else ⟨s, none, false⟩

/-- Model of `equalSlice` from `internal/cmd/follow.go`. -/
def equalSlice : List GoString → List GoString → Bool
  | [], [] => true
  | a :: as2, b :: bs => a == b && equalSlice as2 bs
  | _, _ => false

/-- The descending overlap search of `diffLines`
(`for k := max; k > 0; k--`). -/
def diffLinesGo (prev curr : List GoString) : Nat → List GoString
  | 0 => curr
  | k + 1 =>
    if equalSlice (prev.drop (prev.length - (k + 1))) (curr.take (k + 1)) then
      curr.drop (k + 1)
    else diffLinesGo prev curr k

/-- Model of `diffLines` (follow.go:172-186): emit the lines of `curr` past the longest
suffix of `prev` that is a prefix of `curr`; with no overlap, emit all of
`curr`. -/
def diffLines (prev curr : List GoString) : List GoString :=
  if prev = [] then curr
  else diffLinesGo prev curr (min prev.length curr.length)

/-- Invocation-level errors of the `run` command: the idle-wait error passed
through unchanged, or a coded error (`newCodedError`). -/
inductive RunError
  | wait (err : String)
  | coded (code : String) (message : String)
  deriving DecidableEq

/-- Error code constant `errCommandExit`. -/
def errCommandExit : String := "ERR_COMMAND_EXIT"

/-- Model of `combineRunErrors` (run.go:349-362). -/
def combineRunErrors (waitErr : Option RunError) (exitPropagate exitRequested : Bool)
    (code : Option Int) (found : Bool) : Option RunError :=
  match waitErr with
  | some e => some e
  | none =>
    if exitPropagate then
      if !found && exitRequested then
        some (.coded errCommandExit "exit code not found")
      else
        match code with
        | some c =>
          if found && c != 0 then
            some (.coded errCommandExit ("command exited with " ++ toString c))
          else none
        | none => none
    else none

/-- The fixed 300 ms poll interval of `WaitIdle` (time unit: milliseconds). -/
def idlePoll : Nat := 300

/-- The content-hash fallback loop of `WaitIdle` (tmux adapter): `content t`
is the hash of the 200-line capture at time `t` (captures are assumed to
succeed); the initial zero hash, distinct from every real hash, is modelled
as `none`.  Returns `some r` on success at time `r` and `none` on timeout. -/
def waitIdleLoop (content : Nat → α) [DecidableEq α] (idleDur deadline : Nat)
    (lastHash : Option α) (lastChange now : Nat) : Option Nat :=
  if deadline < now then none
  else if some (content now) ≠ lastHash then
    waitIdleLoop content idleDur deadline (some (content now)) now (now + idlePoll)
  else if idleDur ≤ now - lastChange then some now
  else waitIdleLoop content idleDur deadline lastHash lastChange (now + idlePoll)
termination_by deadline + 1 - now
decreasing_by
  · simp only [idlePoll]; omega
  · simp only [idlePoll]; omega

/-- Model of `WaitIdle` restricted to the content-hash fallback (the pane exposes no
activity timestamp): deadline is `start + timeout`, the last-change clock
starts at `start`, and the initial hash is the zero value. -/
def waitIdle (content : Nat → α) [DecidableEq α] (idleDur timeout start : Nat) : Option Nat :=
  waitIdleLoop content idleDur (start + timeout) none start start

/-- Number of poll ticks after the last observed change until the quiet
period `q` is covered (the ceiling of `q / idlePoll`). -/
def quietTicks (q : Nat) : Nat := (q + idlePoll - 1) / idlePoll

/-! ## Characterizations of the scanning helpers -/

theorem lastIdxSatisfying_eq_none (p : GoString → Bool) (l : List GoString)
    (h : ∀ j, j < l.length → p (l.getD j []) = false) :
    lastIdxSatisfying p l = none := by
  induction l with
  | nil => rfl
  | cons a rest ih =>
    have hrest : lastIdxSatisfying p rest = none := by
      apply ih
      intro j hj
      simpa using h (j + 1) (by simpa using Nat.succ_lt_succ hj)
    have ha : p a = false := by simpa using h 0 (by simp)
    simp [lastIdxSatisfying, hrest, ha]

theorem lastIdxSatisfying_eq_some (p : GoString → Bool) (l : List GoString) (i : Nat)
    (hi : i < l.length) (hp : p (l.getD i []) = true)
    (hlast : ∀ j, i < j → j < l.length → p (l.getD j []) = false) :
    lastIdxSatisfying p l = some i := by
  induction l generalizing i with
  | nil => simp at hi
  | cons a rest ih =>
    cases i with
    | zero =>
      have hrest : lastIdxSatisfying p rest = none := by
        apply lastIdxSatisfying_eq_none
        intro j hj
        simpa using hlast (j + 1) (Nat.succ_pos j) (by simpa using Nat.succ_lt_succ hj)
      have ha : p a = true := by simpa using hp
      simp [lastIdxSatisfying, hrest, ha]
    | succ k =>
      have hrest : lastIdxSatisfying p rest = some k := by
        apply ih
        · simpa using hi
        · simpa using hp
        · intro j hj hjl
          simpa using hlast (j + 1) (Nat.succ_lt_succ hj) (by simpa using Nat.succ_lt_succ hjl)
      simp [lastIdxSatisfying, hrest]

theorem firstIdxAux_eq_none (p : GoString → Bool) (m : List GoString) (base : Nat)
    (h : ∀ j, j < m.length → p (m.getD j []) = false) :
    firstIdxAux p m base = none := by
  induction m generalizing base with
  | nil => rfl
  | cons a rest ih =>
    have ha : p a = false := by simpa using h 0 (by simp)
    have hrest : firstIdxAux p rest (base + 1) = none := by
      apply ih
      intro j hj
      simpa using h (j + 1) (by simpa using Nat.succ_lt_succ hj)
    simp [firstIdxAux, ha, hrest]

theorem firstIdxAux_eq_some (p : GoString → Bool) (m : List GoString) (base jj : Nat)
    (hj : jj < m.length) (hp : p (m.getD jj []) = true)
    (hfirst : ∀ k, k < jj → p (m.getD k []) = false) :
    firstIdxAux p m base = some (base + jj) := by
  induction m generalizing base jj with
  | nil => simp at hj
  | cons a rest ih =>
    cases jj with
    | zero =>
      have ha : p a = true := by simpa using hp
      simp [firstIdxAux, ha]
    | succ k =>
      have ha : p a = false := by simpa using hfirst 0 (Nat.succ_pos k)
      have hrest : firstIdxAux p rest (base + 1) = some (base + 1 + k) := by
        apply ih
        · simpa using hj
        · simpa using hp
        · intro k2 hk2
          simpa using hfirst (k2 + 1) (Nat.succ_lt_succ hk2)
      simp [firstIdxAux, ha, hrest]
      omega

theorem getD_drop (l : List GoString) (start k : Nat) :
    (l.drop start).getD k [] = l.getD (start + k) [] := by
  simp [List.getD_eq_getElem?_getD, List.getElem?_drop]

theorem firstIdxFrom_eq_some (p : GoString → Bool) (l : List GoString) (start j : Nat)
    (hsj : start ≤ j) (hj : j < l.length) (hp : p (l.getD j []) = true)
    (hfirst : ∀ k, start ≤ k → k < j → p (l.getD k []) = false) :
    firstIdxFrom p l start = some j := by
  have hlen : j - start < (l.drop start).length := by
    simp [List.length_drop]; omega
  have h1 : firstIdxAux p (l.drop start) start = some (start + (j - start)) := by
    apply firstIdxAux_eq_some p (l.drop start) start (j - start) hlen
    · rw [getD_drop, Nat.add_sub_cancel' hsj]; exact hp
    · intro k hk
      rw [getD_drop]
      exact hfirst (start + k) (Nat.le_add_right start k) (by omega)
  rw [firstIdxFrom, h1, Nat.add_sub_cancel' hsj]

theorem firstIdxFrom_eq_none (p : GoString → Bool) (l : List GoString) (start : Nat)
    (h : ∀ k, start ≤ k → k < l.length → p (l.getD k []) = false) :
    firstIdxFrom p l start = none := by
  rw [firstIdxFrom]
  apply firstIdxAux_eq_none
  intro j hj
  rw [getD_drop]
  exact h (start + j) (Nat.le_add_right start j) (by simp [List.length_drop] at hj; omega)

/-! ## Characterizations of exit-code extraction -/

theorem extractExitCore_eq_none (tag : GoString) (l : List GoString)
    (h : ∀ x ∈ l, parseExitLine x tag = none) :
    extractExitCore tag l = none := by
  induction l with
  | nil => rfl
  | cons a rest ih =>
    have hrest : extractExitCore tag rest = none :=
      ih fun x hx => h x (List.mem_cons_of_mem a hx)
    simp [extractExitCore, hrest, h a (List.mem_cons_self a rest)]

theorem extractExitCore_eq_some (tag : GoString) (l : List GoString) (i : Nat) (c : Int)
    (hi : i < l.length) (hp : parseExitLine (l.getD i []) tag = some c)
    (hlast : ∀ j, i < j → j < l.length → parseExitLine (l.getD j []) tag = none) :
    extractExitCore tag l = some (l.eraseIdx i, c) := by
  induction l generalizing i with
  | nil => simp at hi
  | cons a rest ih =>
    cases i with
    | zero =>
      have hrest : extractExitCore tag rest = none := by
        apply extractExitCore_eq_none
        intro x hx
        obtain ⟨k, hk, rfl⟩ := List.getElem_of_mem hx
        have := hlast (k + 1) (Nat.succ_pos k) (by simpa using Nat.succ_lt_succ hk)
        simpa [List.getD_eq_getElem?_getD, List.getElem?_eq_getElem hk] using this
      have ha : parseExitLine a tag = some c := by simpa using hp
      simp [extractExitCore, hrest, ha]
    | succ k =>
      have hrest : extractExitCore tag rest = some (rest.eraseIdx k, c) := by
        apply ih
        · simpa using hi
        · simpa using hp
        · intro j hj hjl
          simpa using hlast (j + 1) (Nat.succ_lt_succ hj) (by simpa using Nat.succ_lt_succ hjl)
      simp [extractExitCore, hrest]

theorem extractExitCore_countP (tag : GoString) (l l2 : List GoString) (c : Int)
    (h : extractExitCore tag l = some (l2, c)) :
    l.countP (fun x => (parseExitLine x tag).isSome) =
      l2.countP (fun x => (parseExitLine x tag).isSome) + 1 := by
  induction l generalizing l2 with
  | nil => simp [extractExitCore] at h
  | cons a rest ih =>
    rw [extractExitCore] at h
    cases hrest : extractExitCore tag rest with
    | some pr =>
      obtain ⟨rest2, c2⟩ := pr
      rw [hrest] at h
      simp only [Option.some.injEq, Prod.mk.injEq] at h
      obtain ⟨h1, h2⟩ := h
      subst h1
      subst h2
      have hcount := ih rest2 hrest
      cases hpa : (parseExitLine a tag).isSome <;>
        simp [List.countP_cons, hpa, hcount]
    | none =>
      rw [hrest] at h
      cases hpa : parseExitLine a tag with
      | some c2 =>
        rw [hpa] at h
        simp only [Option.some.injEq, Prod.mk.injEq] at h
        obtain ⟨h1, _⟩ := h
        subst h1
        simp [List.countP_cons, hpa]
      | none => rw [hpa] at h; simp at h

/-! ## Characterizations of the follow-mode diff -/

theorem equalSlice_iff (a b : List GoString) : equalSlice a b = true ↔ a = b := by
  induction a generalizing b with
  | nil => cases b <;> simp [equalSlice]
  | cons x xs ih =>
    cases b with
    | nil => simp [equalSlice]
    | cons y ys => simp [equalSlice, ih]

theorem diffLinesGo_eq_curr (prev curr : List GoString) (k : Nat)
    (h : ∀ k2, 0 < k2 → k2 ≤ k → prev.drop (prev.length - k2) ≠ curr.take k2) :
    diffLinesGo prev curr k = curr := by
  induction k with
  | zero => rfl
  | succ k ih =>
    have hne : equalSlice (prev.drop (prev.length - (k + 1))) (curr.take (k + 1)) = false := by
      cases heq : equalSlice (prev.drop (prev.length - (k + 1))) (curr.take (k + 1)) with
      | false => rfl
      | true =>
        exact absurd ((equalSlice_iff _ _).mp heq) (h (k + 1) (Nat.succ_pos k) le_rfl)
    rw [diffLinesGo, if_neg (by simp [hne])]
    exact ih fun k2 h1 h2 => h k2 h1 (Nat.le_succ_of_le h2)

/-! ## The idle-detection loop on a source that stops changing -/

theorem waitIdleLoop_stable {α : Type} [DecidableEq α] (content : Nat → α)
    (q deadline t0 : Nat)
    (hstable : ∀ t, t0 ≤ t → content t = content t0)
    (hq : 0 < q)
    (hR : t0 + quietTicks q * idlePoll ≤ deadline) :
    ∀ n j, 0 < j → j ≤ quietTicks q → n = quietTicks q - j →
      waitIdleLoop content q deadline (some (content t0)) t0 (t0 + j * idlePoll) =
        some (t0 + quietTicks q * idlePoll) := by
  intro n
  induction n with
  | zero =>
    intro j hj0 hjJ hn
    have hjJ2 : j = quietTicks q := by omega
    subst hjJ2
    rw [waitIdleLoop]
    rw [if_neg (by omega)]
    rw [hstable (t0 + quietTicks q * idlePoll) (Nat.le_add_right _ _)]
    rw [if_neg (by simp)]
    rw [if_pos (by simp only [quietTicks, idlePoll] at *; omega)]
  | succ n ih =>
    intro j hj0 hjJ hn
    have hjlt : j < quietTicks q := by omega
    rw [waitIdleLoop]
    rw [if_neg (by simp only [quietTicks, idlePoll] at *; omega)]
    rw [hstable (t0 + j * idlePoll) (Nat.le_add_right _ _)]
    rw [if_neg (by simp)]
    rw [if_neg (by simp only [quietTicks, idlePoll] at *; omega)]
    have harr : t0 + j * idlePoll + idlePoll = t0 + (j + 1) * idlePoll := by
      simp only [idlePoll]; omega
    rw [harr]
    exact ih (j + 1) (Nat.succ_pos j) (by omega) (by omega)

theorem waitIdleLoop_active {α : Type} [DecidableEq α] (content : Nat → α)
    (q deadline start m : Nat)
    (hstable : ∀ t, start + m * idlePoll ≤ t → content t = content (start + m * idlePoll))
    (hactive : ∀ k, k < m →
      content (start + k * idlePoll) ≠ content (start + (k + 1) * idlePoll))
    (hq : 0 < q)
    (hR : start + m * idlePoll + quietTicks q * idlePoll ≤ deadline) :
    ∀ n k lastHash lastChange, k ≤ m → n = m - k →
      some (content (start + k * idlePoll)) ≠ lastHash →
      waitIdleLoop content q deadline lastHash lastChange (start + k * idlePoll) =
        some (start + m * idlePoll + quietTicks q * idlePoll) := by
  intro n
  induction n with
  | zero =>
    intro k lastHash lastChange hk hn hneq
    have hkm : k = m := by omega
    subst hkm
    rw [waitIdleLoop]
    rw [if_neg (by simp only [quietTicks, idlePoll] at *; omega)]
    rw [if_pos hneq]
    have harr : start + k * idlePoll + idlePoll = start + k * idlePoll + 1 * idlePoll := by
      omega
    rw [harr]
    exact waitIdleLoop_stable content q deadline (start + k * idlePoll) hstable hq hR
      (quietTicks q - 1) 1 Nat.one_pos
      (by simp only [quietTicks, idlePoll] at *; omega) rfl
  | succ n ih =>
    intro k lastHash lastChange hk hn hneq
    have hklt : k < m := by omega
    rw [waitIdleLoop]
    rw [if_neg (by simp only [quietTicks, idlePoll] at *; omega)]
    rw [if_pos hneq]
    have harr : start + k * idlePoll + idlePoll = start + (k + 1) * idlePoll := by
      simp only [idlePoll]; omega
    rw [harr]
    apply ih (k + 1) _ _ (by omega) (by omega)
    simp only [ne_eq, Option.some.injEq]
    exact fun habs => hactive k hklt habs.symm

/-! ## Claims C1-C3: the sentinel window -/

/-- C1: for every captured text `T` and non-empty tags `S` and `E`, when line
`i` is the last line of `T` containing `S` and line `j` is the first line
after `i` containing `E`, `extractRunWindow` reports `windowFound = true` and
returns exactly the lines strictly between lines `i` and `j`, joined with
newlines, with a trailing newline reattached iff `T` ended with one (stated
for a run without exit-code parsing, whose effect on the window claims C4 and
C5 settle). -/
theorem c1_extractRunWindow_window (T S E tag : GoString) (i j : Nat)
    (hS : S ≠ []) (hE : E ≠ [])
    (hi : i < (splitLines T).length)
    (hiS : strContains ((splitLines T).getD i []) S = true)
    (hlast : ∀ k, i < k → k < (splitLines T).length →
      strContains ((splitLines T).getD k []) S = false)
    (hij : i < j) (hj : j < (splitLines T).length)
    (hjE : strContains ((splitLines T).getD j []) E = true)
    (hfirst : ∀ k, i < k → k < j → strContains ((splitLines T).getD k []) E = false) :
    extractRunWindow T S E tag false =
      ⟨List.intercalate ['\n'] (((splitLines T).drop (i + 1)).take (j - (i + 1))) ++
        (if ['\n'].isSuffixOf T then ['\n'] else []),
       none, false, true⟩ := by
  have h1 := lastIdxSatisfying_eq_some (fun l => strContains l S) (splitLines T) i hi hiS hlast
  have h2 := firstIdxFrom_eq_some (fun l => strContains l E) (splitLines T) (i + 1) j
    (by omega) hj hjE (fun k hk1 hk2 => hfirst k (by omega) hk2)
  rw [extractRunWindow, if_neg (by simp [hS, hE])]
  simp only [h1, h2]
  simp

/-- C2: for every captured text `T` and non-empty tags `S` and `E`, when no
line of `T` contains `S`, `extractRunWindow` reports `windowFound = false`
and returns `T` unchanged with no exit code and `exitFound = false`,
whether or not exit parsing was requested. -/
theorem c2_extractRunWindow_noStart (T S E tag : GoString) (parseExit : Bool)
    (hS : S ≠ []) (hE : E ≠ [])
    (h : ∀ line ∈ splitLines T, strContains line S = false) :
    extractRunWindow T S E tag parseExit = ⟨T, none, false, false⟩ := by
  have h1 : lastIdxSatisfying (fun l => strContains l S) (splitLines T) = none := by
    apply lastIdxSatisfying_eq_none
    intro k hk
    have hkk : (splitLines T).getD k [] = (splitLines T)[k] := by
      rw [List.getD_eq_getElem?_getD, List.getElem?_eq_getElem hk]
      rfl
    rw [hkk]
    exact h _ (List.getElem_mem hk)
  rw [extractRunWindow, if_neg (by simp [hS, hE])]
  simp only [h1]

/-- C3: for every captured text `T` and non-empty tags `S` and `E`, when line
`i` is the last line of `T` containing `S` and no later line contains `E`,
`extractRunWindow` reports `windowFound = true` and the window consists of
all lines after line `i` to the end of `T` (stated for a run without
exit-code parsing). -/
theorem c3_extractRunWindow_openWindow (T S E tag : GoString) (i : Nat)
    (hS : S ≠ []) (hE : E ≠ [])
    (hi : i < (splitLines T).length)
    (hiS : strContains ((splitLines T).getD i []) S = true)
    (hlast : ∀ k, i < k → k < (splitLines T).length →
      strContains ((splitLines T).getD k []) S = false)
    (hnoE : ∀ k, i < k → k < (splitLines T).length →
      strContains ((splitLines T).getD k []) E = false) :
    extractRunWindow T S E tag false =
      ⟨List.intercalate ['\n'] ((splitLines T).drop (i + 1)) ++
        (if ['\n'].isSuffixOf T then ['\n'] else []),
       none, false, true⟩ := by
  have h1 := lastIdxSatisfying_eq_some (fun l => strContains l S) (splitLines T) i hi hiS hlast
  have h2 := firstIdxFrom_eq_none (fun l => strContains l E) (splitLines T) (i + 1)
    (fun k hk1 hk2 => hnoE k (by omega) hk2)
  rw [extractRunWindow, if_neg (by simp [hS, hE])]
  simp only [h1, h2]
  simp only [Bool.false_eq_true, if_false]
  have h3 : ((splitLines T).drop (i + 1)).take ((splitLines T).length - (i + 1)) =
      (splitLines T).drop (i + 1) := by
    apply List.take_of_length_le
    simp [List.length_drop]
  rw [h3]

/-- Witness for C1 at a concrete capture with noise before the start tag and
a tail after the end tag. -/
theorem c1_extractRunWindow_window_witness :
    extractRunWindow ("x\n__S__\nmid\n__E__\ntail\n").toList ("__S__").toList
      ("__E__").toList ("__T__").toList false =
      ⟨("mid\n").toList, none, false, true⟩ := by
  have hlen : (splitLines ("x\n__S__\nmid\n__E__\ntail\n").toList).length = 5 := by decide
  have h := c1_extractRunWindow_window ("x\n__S__\nmid\n__E__\ntail\n").toList
    ("__S__").toList ("__E__").toList ("__T__").toList 1 3
    (by decide) (by decide) (by decide) (by decide)
    (by intro k h1 h2; rw [hlen] at h2; interval_cases k <;> decide)
    (by decide) (by decide) (by decide)
    (by intro k h1 h2; interval_cases k; decide)
  simpa using h

/-- Witness for C2 at a concrete capture with no start tag. -/
theorem c2_extractRunWindow_noStart_witness :
    extractRunWindow ("plain\ntext\n").toList ("__S__").toList
      ("__E__").toList ("__T__").toList true =
      ⟨("plain\ntext\n").toList, none, false, false⟩ := by
  exact c2_extractRunWindow_noStart ("plain\ntext\n").toList ("__S__").toList
    ("__E__").toList ("__T__").toList true (by decide) (by decide) (by decide)

/-- Witness for C3 at a concrete capture whose end tag never appears after
the start tag. -/
theorem c3_extractRunWindow_openWindow_witness :
    extractRunWindow ("x\n__S__\na\nb").toList ("__S__").toList
      ("__E__").toList ("__T__").toList false =
      ⟨("a\nb").toList, none, false, true⟩ := by
  have hlen : (splitLines ("x\n__S__\na\nb").toList).length = 4 := by decide
  have h := c3_extractRunWindow_openWindow ("x\n__S__\na\nb").toList ("__S__").toList
    ("__E__").toList ("__T__").toList 1
    (by decide) (by decide) (by decide) (by decide)
    (by intro k h1 h2; rw [hlen] at h2; interval_cases k <;> decide)
    (by intro k h1 h2; rw [hlen] at h2; interval_cases k <;> decide)
  simpa using h

/-! ## Claims C4-C5: exit-code extraction -/

/-- C4: for every window and non-empty exit tag, `extractExitFromLines` scans
backward from the last line; when line `i` parses (tag present, non-empty
post-tag text, valid integer) and every later line does not, it removes
exactly line `i` and reports that integer with `exitFound = true`; when no
line parses it returns the lines unchanged with `exitFound = false`; and on
the spec's concrete scenario the cleaned output is `"line1\n"` with exit
code `7`. -/
theorem c4_extractExitFromLines_spec :
    (∀ (lines : List GoString) (tag : GoString) (i : Nat) (c : Int), tag ≠ [] →
      i < lines.length →
      parseExitLine (lines.getD i []) tag = some c →
      (∀ j, i < j → j < lines.length → parseExitLine (lines.getD j []) tag = none) →
      extractExitFromLines lines tag = (lines.eraseIdx i, some c, true)) ∧
    (∀ (lines : List GoString) (tag : GoString), tag ≠ [] →
      (∀ l ∈ lines, parseExitLine l tag = none) →
      extractExitFromLines lines tag = (lines, none, false)) ∧
    extractRunWindow ("noise\n__START__\nline1\n__EXIT__:7\n__END__\n").toList
      ("__START__").toList ("__END__").toList ("__EXIT__:").toList true =
      ⟨("line1\n").toList, some 7, true, true⟩ := by
  refine ⟨?_, ?_, by decide⟩
  · intro lines tag i c htag hi hp hlast
    rw [extractExitFromLines, if_neg htag,
      extractExitCore_eq_some tag lines i c hi hp hlast]
  · intro lines tag htag h
    rw [extractExitFromLines, if_neg htag, extractExitCore_eq_none tag lines h]

/-- Witness for C4 at a concrete window whose last line carries the exit
tag. -/
theorem c4_extractExitFromLines_spec_witness :
    extractExitFromLines [("a").toList, ("__EXIT__:3").toList] ("__EXIT__:").toList =
      ([("a").toList], some 3, true) := by
  have h := c4_extractExitFromLines_spec.1 [("a").toList, ("__EXIT__:3").toList]
    ("__EXIT__:").toList 1 3 (by decide) (by decide) (by decide)
    (by intro j h1 h2; simp at h2; omega)
  simpa using h

/-- C5 fails on the code as stated: with two exit-tag lines, a first call
removes the later one and succeeds, and a second call on the cleaned lines
still finds the earlier one, so `exitFound` is `true` again, not `false`. -/
theorem c5_idempotent_counterexample :
    extractExitFromLines [("__EXIT__:1").toList, ("__EXIT__:2").toList]
        ("__EXIT__:").toList =
      ([("__EXIT__:1").toList], some 2, true) ∧
    (extractExitFromLines [("__EXIT__:1").toList] ("__EXIT__:").toList).2.2 = true := by
  decide

/-- C5 amended: exit-code extraction is idempotent on windows that contain at
most one line whose post-tag text parses as an integer: if a first call
succeeds and returns cleaned lines, a second call on those cleaned lines with
the same non-empty tag reports `exitFound = false`. -/
theorem c5_extractExit_idempotent (lines cleaned : List GoString) (tag : GoString) (c : Int)
    (htag : tag ≠ [])
    (huniq : lines.countP (fun l => (parseExitLine l tag).isSome) ≤ 1)
    (h1 : extractExitFromLines lines tag = (cleaned, some c, true)) :
    (extractExitFromLines cleaned tag).2.2 = false := by
  rw [extractExitFromLines, if_neg htag] at h1
  cases hcore : extractExitCore tag lines with
  | none => rw [hcore] at h1; simp at h1
  | some pr =>
    obtain ⟨rest, c2⟩ := pr
    rw [hcore] at h1
    simp only [Prod.mk.injEq, Option.some.injEq] at h1
    obtain ⟨hrest, -, -⟩ := h1
    subst hrest
    have hcount := extractExitCore_countP tag lines rest c2 hcore
    have hzero : rest.countP (fun l => (parseExitLine l tag).isSome) = 0 := by omega
    have hnone : ∀ l ∈ rest, parseExitLine l tag = none := by
      intro l hl
      have := List.countP_eq_zero.mp hzero l hl
      simpa using this
    rw [extractExitFromLines, if_neg htag, extractExitCore_eq_none tag rest hnone]

/-- Witness for the amended C5 at a window with a single exit-tag line. -/
theorem c5_extractExit_idempotent_witness :
    (extractExitFromLines [("x").toList] ("__EXIT__:").toList).2.2 = false := by
  exact c5_extractExit_idempotent [("x").toList, ("__EXIT__:0").toList] [("x").toList]
    ("__EXIT__:").toList 0 (by decide) (by decide) (by decide)

/-! ## Claim C6: overall outcome of a run invocation -/

/-- C6: `combineRunErrors` returns the idle-wait error whenever one occurred,
regardless of every flag and value; otherwise, with exit propagation
requested, it returns an `ERR_COMMAND_EXIT` "exit code not found" error when
exit capture was requested but no code was found, an `ERR_COMMAND_EXIT`
error naming the code when a non-zero code was found, and no error when the
found code is zero; without exit propagation (and no wait error) it returns
no error. -/
theorem c6_combineRunErrors_spec :
    (∀ (e : RunError) (p req : Bool) (code : Option Int) (f : Bool),
      combineRunErrors (some e) p req code f = some e) ∧
    (∀ (req : Bool) (code : Option Int),
      combineRunErrors none true req code false =
        if req then some (.coded errCommandExit "exit code not found") else none) ∧
    (∀ (req : Bool) (c : Int),
      combineRunErrors none true req (some c) true =
        if c = 0 then none
        else some (.coded errCommandExit ("command exited with " ++ toString c))) ∧
    (∀ (req : Bool) (code : Option Int) (f : Bool),
      combineRunErrors none false req code f = none) := by
  refine ⟨fun e p req code f => rfl, ?_, ?_, fun req code f => rfl⟩
  · intro req code
    cases req <;> cases code <;> simp [combineRunErrors]
  · intro req c
    rcases eq_or_ne c 0 with rfl | hc
    · simp [combineRunErrors]
    · simp [combineRunErrors, hc]

/-! ## Claims C7 and C10: orchestrator recovery paths -/

/-- C7: with a positive line limit, when extraction on the limited capture
reports `windowFound = false` the orchestrator retries exactly once against
the full unlimited capture and uses that result (even if the retry fails
too); with limit `0` no retry occurs; and when the limited extraction
succeeds no retry occurs. -/
theorem c7_retry_once_spec :
    (∀ (limited full : GoString) (lines : Nat) (S E tag : GoString) (parseExit : Bool),
      (extractRunWindow limited S E tag parseExit).windowFound = false → 0 < lines →
      resolveRunWindow limited (some full) lines S E tag parseExit =
        extractRunWindow full S E tag parseExit) ∧
    (∀ (limited : GoString) (fc : Option GoString) (S E tag : GoString) (parseExit : Bool),
      resolveRunWindow limited fc 0 S E tag parseExit =
        extractRunWindow limited S E tag parseExit) ∧
    (∀ (limited : GoString) (fc : Option GoString) (lines : Nat) (S E tag : GoString)
      (parseExit : Bool),
      (extractRunWindow limited S E tag parseExit).windowFound = true →
      resolveRunWindow limited fc lines S E tag parseExit =
        extractRunWindow limited S E tag parseExit) := by
  refine ⟨?_, ?_, ?_⟩
  · intro limited full lines S E tag parseExit hw hl
    simp only [resolveRunWindow]
    rw [if_pos ⟨hw, hl⟩]
  · intro limited fc S E tag parseExit
    simp only [resolveRunWindow]
    rw [if_neg (by simp)]
  · intro limited fc lines S E tag parseExit hw
    simp only [resolveRunWindow]
    rw [if_neg (by simp [hw])]

/-- Witness for C7 at a limited capture missing the start tag whose
unlimited recapture contains the full window. -/
theorem c7_retry_once_spec_witness :
    resolveRunWindow ("tail\n").toList (some ("__S__\nout\n__E__\n").toList) 200
      ("__S__").toList ("__E__").toList ("__T__").toList false =
      extractRunWindow ("__S__\nout\n__E__\n").toList ("__S__").toList
        ("__E__").toList ("__T__").toList false := by
  exact c7_retry_once_spec.1 ("tail\n").toList ("__S__\nout\n__E__\n").toList 200
    ("__S__").toList ("__E__").toList ("__T__").toList false (by decide) (by decide)

/-- C10: with exit-code capture requested, when sentinel extraction finds no
window in the limited capture nor in the unlimited retry, the orchestrator
still scans the raw capture for the exit tag: if a line parses, the result
reports that exit code with `found = true` and that line removed from the
printed output, even though no window was found. -/
theorem c10_exit_fallback_spec (s full : GoString) (lines : Nat)
    (S E tag : GoString) (segment : Bool) (cl : List GoString) (c : Int)
    (hl : 0 < lines)
    (hw1 : (extractRunWindow s S E tag true).windowFound = false)
    (hw2 : (extractRunWindow full S E tag true).windowFound = false)
    (hfb : extractExitFromLines (splitLines s) tag = (cl, some c, true)) :
    computeRunResult s (some full) lines S E tag true segment =
      ⟨List.intercalate ['\n'] cl ++ (if ['\n'].isSuffixOf s then ['\n'] else []),
        some c, true⟩ := by
  have hres : resolveRunWindow s (some full) lines S E tag true =
      extractRunWindow full S E tag true := by
    simp only [resolveRunWindow]
    rw [if_pos ⟨hw1, hl⟩]
  rw [computeRunResult]
  simp only [Bool.true_or, if_pos rfl, hres, hw2]
  simp only [Bool.false_eq_true, if_false, Bool.and_self, Bool.not_false, Bool.and_true]
  simp only [hfb]
  simp

/-- Witness for C10 at a capture whose start tag scrolled away entirely but
whose exit-tag line survived. -/
theorem c10_exit_fallback_spec_witness :
    computeRunResult ("out\n__EXIT__:5\n").toList (some ("gone\n").toList) 200
      ("__S__").toList ("__E__").toList ("__EXIT__:").toList true false =
      ⟨("out\n").toList, some 5, true⟩ := by
  have h := c10_exit_fallback_spec ("out\n__EXIT__:5\n").toList ("gone\n").toList 200
    ("__S__").toList ("__E__").toList ("__EXIT__:").toList false
    [("out").toList] 5 (by decide) (by decide) (by decide) (by decide)
  simpa using h

/-! ## Claim C8: follow-mode line diffing -/

/-- C8: when the previous capture is non-empty and the new capture extends it
by appended lines, `diffLines` emits exactly the appended lines; when no
non-empty suffix of the previous capture equals a prefix of the new one, it
emits all of the new capture. -/
theorem c8_diffLines_spec :
    (∀ (prev ext : List GoString), prev ≠ [] →
      diffLines prev (prev ++ ext) = ext) ∧
    (∀ (prev curr : List GoString),
      (∀ k, 0 < k → k ≤ min prev.length curr.length →
        prev.drop (prev.length - k) ≠ curr.take k) →
      diffLines prev curr = curr) := by
  constructor
  · intro prev ext hne
    rw [diffLines, if_neg hne]
    have hmin : min prev.length (prev ++ ext).length = prev.length := by
      simp [List.length_append]
    rw [hmin]
    obtain ⟨a, rest, rfl⟩ := List.exists_cons_of_ne_nil hne
    have hlen : (a :: rest).length = rest.length + 1 := rfl
    rw [hlen, diffLinesGo]
    rw [if_pos]
    · rw [← hlen, List.drop_left]
    · rw [← hlen, Nat.sub_self, List.drop_zero, List.take_left]
      exact (equalSlice_iff _ _).mpr rfl
  · intro prev curr h
    rcases eq_or_ne prev [] with rfl | hne
    · rw [diffLines, if_pos rfl]
    · rw [diffLines, if_neg hne]
      exact diffLinesGo_eq_curr prev curr (min prev.length curr.length)
        (fun k2 h1 h2 => h k2 h1 h2)

/-- Witness for C8: the spec's concrete scenario, diffing consecutive
captures that grow by one line. -/
theorem c8_diffLines_spec_witness :
    diffLines [("a").toList, ("b").toList, ("c").toList]
      [("a").toList, ("b").toList, ("c").toList, ("d").toList] = [("d").toList] := by
  have h := c8_diffLines_spec.1 [("a").toList, ("b").toList, ("c").toList]
    [("d").toList] (by decide)
  simpa using h

/-! ## Claim C9: idle detection on a stabilizing content source -/

/-- C9 fails on the code as stated: with content constant from the start of
the wait (`t0 = 0`), quiet period `q = 400` and deadline `500` (so `t0 + q`
is before the deadline, as the claim requires), the poll instants are
`0, 300, 600`; at `600` the deadline check fires before the quiet period has
been observed, so `WaitIdle` times out instead of succeeding in
`[t0 + q, t0 + q + 300)`. -/
theorem c9_waitIdle_counterexample :
    waitIdle (fun _ => (0 : Nat)) 400 500 0 = none ∧
    ¬ ∃ r, waitIdle (fun _ => (0 : Nat)) 400 500 0 = some r ∧ 400 ≤ r ∧ r < 700 := by
  have h : waitIdle (fun _ => (0 : Nat)) 400 500 0 = none := by
    simp [waitIdle, waitIdleLoop, idlePoll]
  exact ⟨h, fun ⟨r, hr, _, _⟩ => Option.noConfusion (h.symm.trans hr)⟩

/-- C9 amended: for a content source that (as observed at the poll instants)
changes at every tick until `t0 = start + m·poll` and is constant from `t0`
on, and every positive quiet period `q` with `t0 + q + poll` at most the
deadline `start + timeout`, `WaitIdle`'s content-hash fallback succeeds at a
time `r` with `t0 + q ≤ r < t0 + q + poll`, never earlier. -/
theorem c9_waitIdle_stabilizes {α : Type} [DecidableEq α] (content : Nat → α)
    (q timeout start m : Nat) (hq : 0 < q)
    (hstable : ∀ t, start + m * idlePoll ≤ t → content t = content (start + m * idlePoll))
    (hactive : ∀ k, k < m →
      content (start + k * idlePoll) ≠ content (start + (k + 1) * idlePoll))
    (hdl : start + m * idlePoll + q + idlePoll ≤ start + timeout) :
    ∃ r, waitIdle content q timeout start = some r ∧
      start + m * idlePoll + q ≤ r ∧ r < start + m * idlePoll + q + idlePoll := by
  have hR : start + m * idlePoll + quietTicks q * idlePoll ≤ start + timeout := by
    simp only [quietTicks, idlePoll] at *
    omega
  refine ⟨start + m * idlePoll + quietTicks q * idlePoll, ?_, ?_, ?_⟩
  · rw [waitIdle]
    have h := waitIdleLoop_active content q (start + timeout) start m hstable hactive hq hR
      m 0 none start (Nat.zero_le m) (by omega) (by simp)
    simpa using h
  · simp only [quietTicks, idlePoll] at *
    omega
  · simp only [quietTicks, idlePoll] at *
    omega

/-- Witness for the amended C9: a source constant from the very start of the
wait, quiet period one poll interval, generous deadline. -/
theorem c9_waitIdle_stabilizes_witness :
    ∃ r, waitIdle (fun _ => (0 : Nat)) 300 900 0 = some r ∧
      0 + 0 * idlePoll + 300 ≤ r ∧ r < 0 + 0 * idlePoll + 300 + idlePoll := by
  exact c9_waitIdle_stabilizes (fun _ => (0 : Nat)) 300 900 0 0 (by decide)
    (fun t ht => rfl) (fun k hk => absurd hk (Nat.not_lt_zero k)) (by decide)
